import Mathlib

/-!
Shallow embedding of the B2B email-discovery pipeline.

The repository is a Next.js application whose core is a set of Genkit
flows that fan a user request out to a language model, the Apollo.io
contact-discovery API and the NeverBounce/ZeroBounce deliverability
APIs, then pool, deduplicate and filter the resulting candidate email
addresses.  External calls (the language model, HTTP fetches) are
modelled as explicit oracle values passed to each function: a value of
type `Except String A` stands for a JavaScript promise that either
resolves (`Except.ok`) or rejects with an exception (`Except.error`).
All functions below are direct translations of the TypeScript source.
-/

namespace B2B

/-- Output shape of both `validateEmailTool` variants
(`src/ai/tools/validate-email-tool.ts`, `ValidateEmailOutputSchema`). -/
structure ValidateEmailOutput where
  email : String
  status : String
  sub_status : Option String := none
  domain : Option String := none
deriving Repr, DecidableEq

/-- Output shape of `findApolloEmailsTool`
(`FindApolloEmailsOutputSchema`). -/
structure FindApolloEmailsOutput where
  domain : String
  emails : List String
  error : Option String := none
deriving Repr, DecidableEq

/-- Output shape of the find-by-criteria flow
(`FindEmailsByCriteriaOutputSchema`).  The `reasoning` field is
optional in the zod schema but every code path of the orchestrating
flow sets it, so it is modelled as a plain string. -/
structure FindEmailsByCriteriaOutput where
  emailAddresses : List String
  reasoning : String
deriving Repr, DecidableEq

/-- Output shape of the Apollo-based generate-from-domains flow
(`GenerateEmailsFromDomainsOutputSchema`). -/
structure GenerateEmailsFromDomainsOutput where
  processedEmails : List String
  generationSummary : String
deriving Repr, DecidableEq

/-- One company record produced by the
`identifyCompaniesAndSuggestEmailsPrompt` LLM call. -/
structure Company where
  name : String
  domain : String
  suggestedEmails : List String
deriving Repr, DecidableEq

/-- Structured output of `identifyCompaniesAndSuggestEmailsPrompt`. -/
structure LLMCompaniesOutput where
  companies : List Company
  initialReasoning : Option String := none
deriving Repr, DecidableEq

/-! ## JavaScript string/array helpers

Small total functions mirroring the JavaScript built-ins the flows
use: `String.prototype.includes` (single-character needle),
`Array.prototype.join(' ')`, `new Set(...)` insertion-order
deduplication, and `String.prototype.substring(lastIndexOf('@')+1)`. -/

/-- `s.includes(c)` for a single-character needle: membership of the
character in the string. -/
def jsIncludesChar (s : String) (c : Char) : Bool :=
  s.data.contains c

/-- Whether a character list starts with a given needle. -/
def listStartsWith : List Char → List Char → Bool
  | _, [] => true
  | [], _ :: _ => false
  | h :: t, n :: ns => h = n && listStartsWith t ns

/-- Whether a character list contains a given needle as a contiguous
run. -/
def listContainsSub (needle : List Char) : List Char → Bool
  | [] => needle.isEmpty
  | c :: rest => listStartsWith (c :: rest) needle || listContainsSub needle rest

/-- Substring search, embedding `String.prototype.includes` with a
multi-character needle (used for the API-key heuristics on error
messages). -/
def jsIncludes (hay needle : String) : Bool :=
  listContainsSub needle.data hay.data

/-- `Array.prototype.join(' ')`. -/
def joinSpace : List String → String
  | [] => ""
  | [s] => s
  | s :: rest => s ++ " " ++ joinSpace rest

/-- Insert into a JavaScript `Set` viewed as an insertion-ordered list:
a new element is appended, a duplicate is dropped. -/
def jsSetInsert (acc : List String) (x : String) : List String :=
  if x ∈ acc then acc else acc ++ [x]

/-- `Array.from(new Set(l))`: deduplicate keeping the first occurrence
of each element, in insertion order. -/
def jsSetOfList (l : List String) : List String :=
  l.foldl jsSetInsert []

/-- `String.prototype.toLowerCase`, written structurally over the
character data (extensionally equal to `String.toLower`, see
`strToLower_eq`) so that concrete inputs evaluate by `decide`. -/
def strToLower (s : String) : String :=
  ⟨s.data.map Char.toLower⟩

/-- `String.prototype.trim`: strip leading and trailing whitespace,
written structurally over the character data so that concrete inputs
evaluate by `decide`. -/
def jsTrim (s : String) : String :=
  ⟨((s.data.dropWhile Char.isWhitespace).reverse.dropWhile Char.isWhitespace).reverse⟩

/-- The pooled-candidate deduplication step shared by
`findEmailsByCriteriaFlow` (line 167) and `generateEmailsFromDomainsFlow`
(line 201): `Array.from(new Set(list.map(e => e.toLowerCase())))`. -/
def dedupeLowercase (l : List String) : List String :=
  jsSetOfList (l.map strToLower)

/-- The characters after the last `'@'` of a character list; the whole
list when no `'@'` occurs, mirroring
`email.substring(email.lastIndexOf("@") + 1)` (with `lastIndexOf`
returning `-1` when absent). -/
def afterLastAtList : List Char → List Char
  | [] => []
  | c :: rest =>
    if '@' ∈ rest then afterLastAtList rest
    else if c = '@' then rest
    else c :: rest

/-- `email.substring(email.lastIndexOf("@") + 1)` on strings. -/
def afterLastAt (s : String) : String :=
  ⟨afterLastAtList s.data⟩

/-! ## Candidate Validator, basic variant

`src/ai/tools/validate-email-tool.ts`, tool `validateEmailBasic`:
a purely syntactic check; the function takes nothing but the input
string, so by construction it performs no network call. -/

/-- Embedding of the `validateEmailBasic` tool body. -/
def validateEmailBasic (input : String) : ValidateEmailOutput :=
  let email := jsTrim input
  let domain := afterLastAt email
  if email ≠ "" ∧ jsIncludesChar email '@' ∧ email.length > 3 then
    { email := email
      status := "valid"
      sub_status := some "basic_format_ok"
      domain := some domain }
  else
    { email := email
      status := "invalid"
      sub_status := some "basic_format_failed"
      domain := some domain }

/-! ## Candidate Validator, NeverBounce variant

`src/services/neverbounce.ts` (`verifyEmailWithNeverBounce`) and the
`validateEmailWithNeverBounce` tool.  The outcome of the single
`fetch` to the NeverBounce endpoint is modelled by `NBWire`: the
request may reject (network error), resolve with a body that fails the
zod `safeParse`, or resolve with a parsed response. -/

/-- Parsed NeverBounce response, restricted to the fields the service
and tool read (`NeverBounceResponseSchema`). -/
structure NeverBounceResponse where
  status : String
  result : Option String := none
  flags : Option (List String) := none
  message : Option String := none
  addressInfoOriginalEmail : Option String := none
  addressInfoDomain : Option String := none
deriving Repr, DecidableEq

/-- Outcome of the `fetch` + `safeParse` against the NeverBounce API. -/
inductive NBWire where
  | netThrow (msg : String)
  | badShape (err : String)
  | resp (r : NeverBounceResponse)
deriving Repr, DecidableEq

/-- Embedding of `verifyEmailWithNeverBounce`: every failure mode of
the network call is converted into a response value; the function
never throws. -/
def verifyEmailWithNeverBounce (email : String) (apiKey : String)
    (wire : NBWire) : NeverBounceResponse :=
  if apiKey = "" then
    { status := "client_error"
      message := some "NeverBounce API key is not configured."
      addressInfoOriginalEmail := some email }
  else
    match wire with
    | .netThrow msg =>
      { status := "network_error"
        message := some ("Network or unexpected error during NeverBounce API call: " ++ msg)
        result := some "unknown"
        addressInfoOriginalEmail := some email }
    | .badShape err =>
      { status := "api_error"
        message := some ("Failed to parse NeverBounce response. " ++ err)
        result := some "unknown"
        addressInfoOriginalEmail := some email }
    | .resp r =>
      if r.status ≠ "success" ∧ r.message.isSome then r
      else if r.status = "success" ∧ r.result.isNone then
        { r with result := some "unknown" }
      else r

/-- JavaScript truthiness of an optional environment variable: unset
and the empty string are both falsy. -/
def envKeySet : Option String → Bool
  | none => false
  | some s => s ≠ ""

/-- JavaScript `a || b` for an optional string `a` and a string
default `b`: the default is used when `a` is undefined or empty. -/
def jsOrString (a : Option String) (b : String) : String :=
  match a with
  | some s => if s ≠ "" then s else b
  | none => b

/-- `result.message || (result.flags ? result.flags.join(', ') : undefined)`. -/
def nbSubStatus (r : NeverBounceResponse) : Option String :=
  match r.message with
  | some m => if m ≠ "" then some m else r.flags.map (String.intercalate ", ")
  | none => r.flags.map (String.intercalate ", ")

/-- Embedding of the `validateEmailWithNeverBounce` tool body
(`apiKey` is the `NEVERBOUNCE_API_KEY` environment variable, `wire`
the behaviour of the single outbound request). -/
def validateEmailToolNB (apiKey : Option String) (wire : NBWire)
    (email : String) : ValidateEmailOutput :=
  if ¬ envKeySet apiKey then
    { email := email
      status := "error_api_key_missing"
      sub_status := some "NeverBounce API key is not configured on the server." }
  else
    let r := verifyEmailWithNeverBounce email (apiKey.getD "") wire
    { email := email
      status := if r.status = "success" then jsOrString r.result "unknown" else r.status
      sub_status := nbSubStatus r
      domain := r.addressInfoDomain }

/-! ## Contact Finder (Apollo.io)

`src/services/apollo.ts` (`fetchEmailsFromApollo`) and the
`findEmailsWithApollo` tool.  The single `fetch` against the Apollo
search endpoint is modelled by `ApolloWire`. -/

/-- Result of `ApolloSearchResponseSchema.safeParse` on the response
body: either the shape check fails, or it yields a list of people
records each with a nullable `email` field. -/
inductive ApolloParsed where
  | badShape
  | people (l : List (Option String))
deriving Repr, DecidableEq

/-- Outcome of the `fetch` to the Apollo endpoint. -/
inductive ApolloWire where
  | netThrow (msg : String)
  | httpError (statusCode : Nat) (body : String)
  | ok (parsed : ApolloParsed)
deriving Repr, DecidableEq

/-- Embedding of `fetchEmailsFromApollo`: non-OK HTTP statuses, parse
failures and network errors are all logged and mapped to `[]`; on
success the non-null, non-blank `email` fields are collected and
truncated to `maxEmailsPerDomain`. -/
def fetchEmailsFromApollo (apiKey : String) (maxEmailsPerDomain : Nat)
    (wire : ApolloWire) : List String :=
  if apiKey = "" then []
  else
    match wire with
    | .netThrow _ => []
    | .httpError _ _ => []
    | .ok .badShape => []
    | .ok (.people l) =>
      ((l.filterMap id).filter (fun e => jsTrim e ≠ "")).take maxEmailsPerDomain

/-- Embedding of the `findEmailsWithApollo` tool body (`apiKey` is the
`APOLLO_API_KEY` environment variable). -/
def findApolloEmailsTool (apiKey : Option String) (wire : ApolloWire)
    (domain : String) (maxEmailsPerDomain : Nat) : FindApolloEmailsOutput :=
  if ¬ envKeySet apiKey then
    { domain := domain
      emails := []
      error := some "Apollo.io API key is not configured on the server." }
  else
    { domain := domain
      emails := fetchEmailsFromApollo (apiKey.getD "") maxEmailsPerDomain wire
      error := none }

/-! ## Chunked validation

The validating flows run
`for (let i = 0; i < list.length; i += CHUNK_SIZE) { slice(i, i + CHUNK_SIZE); ... }`
with `CHUNK_SIZE = 10`: the candidate list is cut into successive
slices of at most `CHUNK_SIZE` elements, each slice is validated with
`Promise.all`, and per-address rejections are converted by a
`.catch` into an `error_tool_invocation_failed` outcome. -/

/-- One step of the chunking loop, with explicit fuel (the loop
consumes at least one element per iteration when `n ≠ 0`, so
`l.length` fuel always suffices — see `chunkList`). -/
def chunkListAux (n : Nat) : Nat → List α → List (List α)
  | _, [] => []
  | 0, _ :: _ => []
  | fuel + 1, x :: xs => (x :: xs).take n :: chunkListAux n fuel ((x :: xs).drop n)

/-- `list.slice(i, i + n)` chunking of a list into successive slices
of at most `n` elements. -/
def chunkList (n : Nat) (l : List α) : List (List α) :=
  chunkListAux n l.length l

/-- The per-address `.catch` wrapper around one `validateEmailTool`
call: a rejection is converted into an
`error_tool_invocation_failed` outcome instead of aborting the
chunk. -/
def validateOne (validate : String → Except String ValidateEmailOutput)
    (email : String) : ValidateEmailOutput :=
  match validate email with
  | .ok r => r
  | .error e =>
    { email := email
      status := "error_tool_invocation_failed"
      sub_status := some e }

/-- The whole chunked-validation loop: validate every chunk in order
and collect the results in submission order. -/
def validatedList (validate : String → Except String ValidateEmailOutput)
    (l : List String) : List ValidateEmailOutput :=
  (chunkList 10 l).flatMap (fun c => c.map (validateOne validate))

/-- The keep condition of the result loop:
`result.status === 'valid' && result.email`. -/
def keptPred (r : ValidateEmailOutput) : Bool :=
  r.status == "valid" && r.email != ""

/-- The kept addresses: `email` fields of the outcomes that validated
as `valid`. -/
def keptEmails (validate : String → Except String ValidateEmailOutput)
    (l : List String) : List String :=
  ((validatedList validate l).filter keptPred).map (·.email)

/-! ## Pipeline Orchestrator: find-by-criteria (NeverBounce variant)

`src/ai/flows/find-emails-by-criteria.ts`, `findEmailsByCriteriaFlow`.
The three kinds of external calls the flow awaits are collected in a
`FindCriteriaEnv`: the LLM prompt (which may reject, or resolve with
or without a structured output), and the two tools, each of which is
an async call that may reject (`Except.error`) — a rejection of a
tool call is intercepted by the flow's per-call `.catch`, while a
rejection of the LLM call reaches the flow's top-level `catch`. -/

structure FindCriteriaEnv where
  llm : Except String (Option LLMCompaniesOutput)
  apollo : String → Except String FindApolloEmailsOutput
  validate : String → Except String ValidateEmailOutput

/-- `MAX_EMAILS_PER_DOMAIN_FROM_APOLLO`. -/
def MAX_EMAILS_PER_DOMAIN_FROM_APOLLO : Nat := 5

/-- JavaScript truthiness of the optional `error` field. -/
def optTruthy : Option String → Bool
  | none => false
  | some s => s ≠ ""

/-- API-key heuristic applied to a message of an exception thrown by
`findApolloEmailsTool` (the `.catch` branch). -/
def apolloCatchKeyIssue (e : String) : Bool :=
  jsIncludes (strToLower e) "api key" || jsIncludes (strToLower e) "unauthorized" ||
    jsIncludes (strToLower e) "forbidden"

/-- API-key heuristic applied to a reported `error` field of an
Apollo tool result. -/
def apolloResultKeyIssue (err : String) : Bool :=
  jsIncludes (strToLower err) "api key" || jsIncludes (strToLower err) "unconfigured" ||
    jsIncludes (strToLower err) "unauthorized" || jsIncludes (strToLower err) "forbidden"

/-- The Apollo fan-out of the flow: one tool call per company, with a
`.catch` converting a rejection into an error result. -/
def apolloResultOf (env : FindCriteriaEnv) (c : Company) : FindApolloEmailsOutput :=
  match env.apollo c.domain with
  | .ok r => r
  | .error e =>
    { domain := c.domain
      emails := []
      error := some ("Tool invocation failed: " ++ e) }

/-- All AI-suggested candidate addresses
(`allPotentialEmailsFromAI`). -/
def aiSuggestedOf (out : LLMCompaniesOutput) : List String :=
  out.companies.flatMap (·.suggestedEmails)

/-- The Apollo fan-out results for all identified companies. -/
def apolloResultsOf (env : FindCriteriaEnv) (out : LLMCompaniesOutput) :
    List FindApolloEmailsOutput :=
  out.companies.map (apolloResultOf env)

/-- All Apollo-found candidate addresses
(`allPotentialEmailsFromApollo`). -/
def apolloEmailsOf (env : FindCriteriaEnv) (out : LLMCompaniesOutput) : List String :=
  (apolloResultsOf env out).flatMap (·.emails)

/-- `combinedPotentialEmails`: AI candidates first, then Apollo
candidates, blank entries dropped. -/
def combinedOf (env : FindCriteriaEnv) (out : LLMCompaniesOutput) : List String :=
  (aiSuggestedOf out ++ apolloEmailsOf env out).filter (fun e => jsTrim e ≠ "")

/-- `uniquePotentialEmails`: lowercased, case-insensitively
deduplicated pool. -/
def uniqueOf (env : FindCriteriaEnv) (out : LLMCompaniesOutput) : List String :=
  dedupeLowercase (combinedOf env out)

/-- `apolloToolErrorCount`: rejections counted by the `.catch` plus
results whose `error` field is set (a rejected call is counted twice,
once in its `.catch` and once when its converted result is scanned). -/
def apolloToolErrorCountOf (env : FindCriteriaEnv) (out : LLMCompaniesOutput) : Nat :=
  out.companies.countP (fun c => (env.apollo c.domain).isOk = false) +
    (apolloResultsOf env out).countP (fun r => optTruthy r.error)

/-- `apolloApiKeyIssueDetected`. -/
def apolloKeyIssueOf (env : FindCriteriaEnv) (out : LLMCompaniesOutput) : Bool :=
  out.companies.any (fun c =>
    match env.apollo c.domain with
    | .error e => apolloCatchKeyIssue e
    | .ok _ => false) ||
  (apolloResultsOf env out).any (fun r =>
    match r.error with
    | some err => optTruthy (some err) && apolloResultKeyIssue err
    | none => false)

/-- The fixed first narrative sentence of the top-level catch branch. -/
def criticalErrorMsg : String :=
  "A critical server error occurred during the find contacts process. Please check server logs or try again later."

/-- Narrative sentence pushed when the LLM identifies nothing. -/
def noCompaniesMsg : String :=
  "LLM could not identify relevant companies or suggest initial emails for the search criteria."

/-- The narrative note attached when some Apollo lookups reported
problems. -/
def apolloErrorStep (errCount : Nat) (keyIssue : Bool) : String :=
  toString errCount ++ " domain(s) encountered issues during Apollo.io email search." ++
    (if keyIssue then
      " This may indicate an Apollo.io API key configuration problem (e.g., missing, invalid, or unauthorized key). Please verify APOLLO_API_KEY in your .env file and check server logs."
    else
      " Check server logs for more details on Apollo.io tool errors.")

/-- The narrative note attached when some addresses did not validate
as `valid`. -/
def validationErrorStep (skipped : Nat) (keyIssue : Bool) : String :=
  toString skipped ++ " email(s) were not \x27valid\x27." ++
    (if keyIssue then
      " This may indicate a NeverBounce API key configuration problem (e.g., missing, invalid, or unauthorized key). Please verify NEVERBOUNCE_API_KEY in your .env file and check server logs."
    else
      " Reasons could include \x27invalid\x27, \x27catchall\x27, \x27disposable\x27, \x27unknown\x27, or API/tool errors. Check server logs for details.")

/-- The narrative sentences pushed before the combined-pool emptiness
check (steps 1–3 of the flow plus the optional Apollo error note). -/
def preValidationSteps (env : FindCriteriaEnv) (out : LLMCompaniesOutput) : List String :=
  [jsOrString out.initialReasoning
      ("LLM identified " ++ toString out.companies.length ++ " companies."),
    "LLM directly suggested " ++ toString (aiSuggestedOf out).length ++ " email(s).",
    "Apollo.io found an additional " ++
      toString ((apolloResultsOf env out).map (·.emails.length)).sum ++
      " potential email(s) for " ++
      (if out.companies.length > 0 then
        toString out.companies.length ++ " domain(s)"
      else "the identified domains") ++ "."] ++
  (if apolloToolErrorCountOf env out > 0 then
    [apolloErrorStep (apolloToolErrorCountOf env out) (apolloKeyIssueOf env out)]
  else [])

/-- Embedding of `findEmailsByCriteriaFlow` (the orchestrating
NeverBounce variant).  The only awaited call not wrapped in its own
`.catch` is the LLM prompt, so the top-level `catch` fires exactly
when that call rejects, with no narrative steps accumulated yet. -/
def findEmailsByCriteriaFlow (env : FindCriteriaEnv) : FindEmailsByCriteriaOutput :=
  match env.llm with
  | .error _ =>
    { emailAddresses := []
      reasoning := joinSpace [criticalErrorMsg] }
  | .ok none =>
    { emailAddresses := []
      reasoning := joinSpace [noCompaniesMsg] }
  | .ok (some out) =>
    if out.companies = [] then
      { emailAddresses := []
        reasoning := joinSpace [noCompaniesMsg] }
    else if combinedOf env out = [] then
      { emailAddresses := []
        reasoning := joinSpace (preValidationSteps env out ++
          ["No potential emails found from AI suggestions or Apollo.io to perform validation on."]) }
    else
      let unique := uniqueOf env out
      let validated := validatedList env.validate unique
      let allVerified := keptEmails env.validate unique
      let skipped := (validated.filter (fun r => keptPred r = false)).length
      let nbKeyIssue := (validated.filter (fun r => keptPred r = false)).any
        (fun r => r.status == "error_api_key_missing")
      { emailAddresses := allVerified
        reasoning := joinSpace (preValidationSteps env out ++
          ["Combined to " ++ toString unique.length ++ " unique potential emails for validation.",
            "NeverBounce validation confirmed " ++ toString allVerified.length ++ " email(s) as valid."] ++
          (if skipped > 0 then [validationErrorStep skipped nbKeyIssue] else []) ++
          ["Displaying all " ++ toString allVerified.length ++ " valid email(s)."]) }

/-- Embedding of the prompt-only historical variant of
`findEmailsByCriteriaFlow`
(`src/ai/flows/find-emails-by-criteria.ts`, second document:
`const {output} = await findEmailsByCriteriaPrompt(input); return output!;`).
There is no `try`/`catch`: a rejection of the prompt call propagates
to the caller, and a missing structured output is passed through the
non-null assertion unchanged. -/
def findEmailsByCriteriaFlowSimple
    (promptCall : Except String (Option FindEmailsByCriteriaOutput)) :
    Except String (Option FindEmailsByCriteriaOutput) :=
  match promptCall with
  | .error e => .error e
  | .ok output => .ok output

/-! ## Pipeline Orchestrator: generate-from-domains (Apollo variant)

`src/ai/flows/extract-emails-from-text.ts`, second document:
`generateEmailsFromDomainsFlow`.  External calls: the domain
extraction prompt and the per-domain Apollo tool calls. -/

structure GenDomainsEnv where
  domainsCall : Except String (Option (List String))
  apollo : String → Except String FindApolloEmailsOutput

/-- The four generic local parts prepended for every extracted
domain. -/
def genericPrefixes : List String :=
  ["contact@", "info@", "support@", "sales@"]

/-- `genericSuggestions`: the four generic addresses per domain, in
domain order. -/
def genericSuggestionsOf (domains : List String) : List String :=
  domains.flatMap (fun domain => genericPrefixes.map (fun p => p ++ domain))

/-- The Apollo fan-out of the generate-from-domains flow, with the
per-call `.catch`. -/
def genApolloResultOf (env : GenDomainsEnv) (domain : String) : FindApolloEmailsOutput :=
  match env.apollo domain with
  | .ok r => r
  | .error e =>
    { domain := domain
      emails := []
      error := some ("Tool invocation failed: " ++ e) }

/-- The Apollo fan-out results for all extracted domains. -/
def genApolloResultsOf (env : GenDomainsEnv) (domains : List String) :
    List FindApolloEmailsOutput :=
  domains.map (genApolloResultOf env)

/-- `allPotentialEmails`: generic suggestions first, then the Apollo
results (non-blank entries only, per the `typeof e === 'string' && e`
filter). -/
def genAllPotentialOf (env : GenDomainsEnv) (domains : List String) : List String :=
  genericSuggestionsOf domains ++
    (genApolloResultsOf env domains).flatMap (fun r => r.emails.filter (fun e => e ≠ ""))

/-- `uniqueEmails`: candidates containing an at-sign, lowercased and
deduplicated. -/
def genUniqueOf (env : GenDomainsEnv) (domains : List String) : List String :=
  dedupeLowercase ((genAllPotentialOf env domains).filter (fun e => jsIncludesChar e '@'))

/-- `apolloToolErrorCount` of the generate-from-domains flow (same
double counting of rejected calls as in the criteria flow). -/
def genApolloErrorCountOf (env : GenDomainsEnv) (domains : List String) : Nat :=
  domains.countP (fun d => (env.apollo d).isOk = false) +
    (genApolloResultsOf env domains).countP (fun r => optTruthy r.error)

/-- `apolloApiKeyIssueDetected` of the generate-from-domains flow. -/
def genApolloKeyIssueOf (env : GenDomainsEnv) (domains : List String) : Bool :=
  domains.any (fun d =>
    match env.apollo d with
    | .error e => apolloCatchKeyIssue e
    | .ok _ => false) ||
  (genApolloResultsOf env domains).any (fun r =>
    match r.error with
    | some err => optTruthy (some err) && apolloResultKeyIssue err
    | none => false)

/-- The Apollo error note of the generate-from-domains flow. -/
def genApolloErrorStep (errCount : Nat) (keyIssue : Bool) : String :=
  toString errCount ++ " domain(s) encountered issues during Apollo.io email search." ++
    (if keyIssue then
      " This may indicate an Apollo.io API key configuration problem. Please verify APOLLO_API_KEY in your .env file."
    else "")

/-- Embedding of `generateEmailsFromDomainsFlow` (Apollo variant). -/
def generateEmailsFromDomainsFlow (env : GenDomainsEnv) : GenerateEmailsFromDomainsOutput :=
  match env.domainsCall with
  | .error _ =>
    { processedEmails := []
      generationSummary := "A critical server error occurred. Please check server logs or try again later." }
  | .ok outOpt =>
    let domains := outOpt.getD []
    if domains = [] then
      { processedEmails := []
        generationSummary := "No valid domain names could be extracted from the provided text." }
    else
      let unique := genUniqueOf env domains
      { processedEmails := unique
        generationSummary := joinSpace
          (["Extracted " ++ toString domains.length ++ " unique domain(s) from the text.",
            "Suggested " ++ toString (genericSuggestionsOf domains).length ++ " generic emails.",
            "Apollo.io found an additional " ++
              toString ((genApolloResultsOf env domains).map (·.emails.length)).sum ++
              " email(s)."] ++
          (if genApolloErrorCountOf env domains > 0 then
            [genApolloErrorStep (genApolloErrorCountOf env domains)
              (genApolloKeyIssueOf env domains)]
          else []) ++
          ["Total unique potential emails found: " ++ toString unique.length ++
            ". No external validation was performed."]) }

/-! ## Concrete environments used to evaluate the embedding

Closed sample environments: an LLM failure, a run producing 31
distinct valid candidates, a small mixed-case run, and sample tool
behaviours. -/

/-- Environment whose LLM call rejects. -/
def envLLMError : FindCriteriaEnv :=
  { llm := .error "model unavailable"
    apollo := fun d => .ok { domain := d, emails := [] }
    validate := fun e => .ok (validateEmailBasic e) }

/-- 31 distinct syntactically valid addresses. -/
def c4Emails : List String :=
  ["a01@x.com", "a02@x.com", "a03@x.com", "a04@x.com", "a05@x.com",
   "a06@x.com", "a07@x.com", "a08@x.com", "a09@x.com", "a10@x.com",
   "a11@x.com", "a12@x.com", "a13@x.com", "a14@x.com", "a15@x.com",
   "a16@x.com", "a17@x.com", "a18@x.com", "a19@x.com", "a20@x.com",
   "a21@x.com", "a22@x.com", "a23@x.com", "a24@x.com", "a25@x.com",
   "a26@x.com", "a27@x.com", "a28@x.com", "a29@x.com", "a30@x.com",
   "a31@x.com"]

/-- LLM output suggesting the 31 candidates for one company. -/
def out31 : LLMCompaniesOutput :=
  { companies := [{ name := "Acme", domain := "acme.com", suggestedEmails := c4Emails }] }

/-- Environment in which all 31 candidates validate as `valid` (basic
validator). -/
def env31 : FindCriteriaEnv :=
  { llm := .ok (some out31)
    apollo := fun d => .ok { domain := d, emails := [] }
    validate := fun e => .ok (validateEmailBasic e) }

/-- Small mixed-case LLM output. -/
def outMixed : LLMCompaniesOutput :=
  { companies := [{ name := "A", domain := "x.com", suggestedEmails := ["UPPER@X.com"] }] }

/-- Environment producing mixed-case candidates from both sources,
with a validator that echoes the submitted address (as both real
`validateEmailTool` variants used by this flow do). -/
def envMixed : FindCriteriaEnv :=
  { llm := .ok (some outMixed)
    apollo := fun d => .ok { domain := d, emails := ["MiXeD@X.com"] }
    validate := fun e => .ok { email := e, status := "valid" } }

/-- Sample validator rejecting exactly one address. -/
def wValidate : String → Except String ValidateEmailOutput :=
  fun e => if e = "bad@x.com" then .error "boom"
    else .ok { email := e, status := "valid" }

/-- Twelve candidates (two chunks), one of which makes the validator
reject. -/
def w12 : List String :=
  ["b01@x.com", "b02@x.com", "b03@x.com", "b04@x.com", "b05@x.com",
   "b06@x.com", "b07@x.com", "b08@x.com", "b09@x.com", "b10@x.com",
   "bad@x.com", "b12@x.com"]

/-- Generate-from-domains environment whose every Apollo lookup
fails. -/
def genEnvW : GenDomainsEnv :=
  { domainsCall := .ok (some ["acme.com"])
    apollo := fun _ => .error "boom" }

/-! ## Generic lemmas about the helper functions -/

theorem char_toNat_ofNat (n : Nat) (h : n.isValidChar) : (Char.ofNat n).toNat = n := by
  simp [Char.ofNat, h, Char.ofNatAux, Char.toNat, UInt32.toNat]

theorem char_toLower_idem (c : Char) : c.toLower.toLower = c.toLower := by
  unfold Char.toLower
  by_cases h : c.toNat ≥ 65 ∧ c.toNat ≤ 90
  · rw [if_pos h, char_toNat_ofNat (c.toNat + 32) (Or.inl (by omega)), if_neg (by omega)]
  · rw [if_neg h, if_neg h]

theorem strToLower_eq (s : String) : strToLower s = s.toLower :=
  (String.map_eq Char.toLower s).symm

theorem strToLower_idem (s : String) : strToLower (strToLower s) = strToLower s := by
  have key : ∀ l : List Char, (l.map Char.toLower).map Char.toLower = l.map Char.toLower := by
    intro l
    induction l with
    | nil => rfl
    | cons c t ih => simp only [List.map_cons, char_toLower_idem, ih]
  simp only [strToLower, key]

theorem mem_foldl_jsSetInsert (l : List String) (init : List String) (a : String) :
    a ∈ l.foldl jsSetInsert init ↔ a ∈ init ∨ a ∈ l := by
  induction l generalizing init with
  | nil => simp
  | cons x t ih =>
    rw [List.foldl_cons, ih]
    unfold jsSetInsert
    by_cases hx : x ∈ init
    · simp only [if_pos hx, List.mem_cons]
      constructor
      · rintro (h | h)
        · exact Or.inl h
        · exact Or.inr (Or.inr h)
      · rintro (h | h | h)
        · exact Or.inl h
        · exact Or.inl (h ▸ hx)
        · exact Or.inr h
    · simp only [if_neg hx, List.mem_append, List.mem_singleton, List.mem_cons]
      tauto

theorem nodup_foldl_jsSetInsert (l : List String) (init : List String) (h : init.Nodup) :
    (l.foldl jsSetInsert init).Nodup := by
  induction l generalizing init with
  | nil => exact h
  | cons x t ih =>
    rw [List.foldl_cons]
    apply ih
    unfold jsSetInsert
    by_cases hx : x ∈ init
    · simpa [hx] using h
    · simp [List.nodup_append, h, hx]

theorem mem_jsSetOfList (l : List String) (a : String) :
    a ∈ jsSetOfList l ↔ a ∈ l := by
  unfold jsSetOfList
  rw [mem_foldl_jsSetInsert]
  simp

theorem nodup_jsSetOfList (l : List String) : (jsSetOfList l).Nodup :=
  nodup_foldl_jsSetInsert l [] List.nodup_nil

theorem mem_dedupeLowercase (l : List String) (a : String) :
    a ∈ dedupeLowercase l ↔ a ∈ l.map strToLower := by
  unfold dedupeLowercase
  exact mem_jsSetOfList _ a

theorem chunkListAux_flatten {α : Type} (n : Nat) (hn : n ≠ 0) :
    ∀ (fuel : Nat) (l : List α), l.length ≤ fuel →
      (chunkListAux n fuel l).flatten = l := by
  intro fuel
  induction fuel with
  | zero =>
    intro l hl
    cases l with
    | nil => rfl
    | cons x xs => simp at hl
  | succ f ih =>
    intro l hl
    cases l with
    | nil => rfl
    | cons x xs =>
      have hlen : ((x :: xs).drop n).length ≤ f := by
        rw [List.length_drop]
        simp only [List.length_cons] at hl ⊢
        omega
      rw [chunkListAux, List.flatten_cons, ih ((x :: xs).drop n) hlen,
        List.take_append_drop]

theorem chunkList_flatten {α : Type} (n : Nat) (hn : n ≠ 0) (l : List α) :
    (chunkList n l).flatten = l :=
  chunkListAux_flatten n hn l.length l le_rfl

theorem chunkListAux_mem_bounds {α : Type} (n : Nat) (hn : n ≠ 0) :
    ∀ (fuel : Nat) (l : List α), ∀ c ∈ chunkListAux n fuel l,
      c ≠ [] ∧ c.length ≤ n := by
  intro fuel
  induction fuel with
  | zero =>
    intro l c hc
    cases l <;> simp [chunkListAux] at hc
  | succ f ih =>
    intro l c hc
    cases l with
    | nil => simp [chunkListAux] at hc
    | cons x xs =>
      rw [chunkListAux, List.mem_cons] at hc
      rcases hc with rfl | hc
      · refine ⟨?_, List.length_take_le n _⟩
        cases n with
        | zero => exact absurd rfl hn
        | succ m => simp [List.take_succ_cons]
      · exact ih _ c hc

theorem chunkList_mem_bounds {α : Type} (n : Nat) (hn : n ≠ 0) (l : List α) :
    ∀ c ∈ chunkList n l, c ≠ [] ∧ c.length ≤ n :=
  chunkListAux_mem_bounds n hn l.length l

theorem chunkListAux_dropLast_full {α : Type} (n : Nat) (hn : n ≠ 0) :
    ∀ (fuel : Nat) (l : List α), l.length ≤ fuel →
      ∀ c ∈ (chunkListAux n fuel l).dropLast, c.length = n := by
  intro fuel
  induction fuel with
  | zero =>
    intro l hl c hc
    cases l with
    | nil => simp [chunkListAux] at hc
    | cons x xs => simp at hl
  | succ f ih =>
    intro l hl c hc
    cases l with
    | nil => simp [chunkListAux] at hc
    | cons x xs =>
      rw [chunkListAux] at hc
      rcases hdrop : (x :: xs).drop n with _ | ⟨y, ys⟩
      · rw [hdrop] at hc
        cases f <;> simp [chunkListAux] at hc
      · have hlen : n < (x :: xs).length := by
          by_contra hle
          rw [List.drop_eq_nil_of_le (by omega)] at hdrop
          exact List.noConfusion hdrop
        have hf : (y :: ys).length ≤ f := by
          have := List.length_drop n (x :: xs)
          rw [hdrop] at this
          omega
        have hrest : chunkListAux n f ((x :: xs).drop n) ≠ [] := by
          rw [hdrop]
          cases f with
          | zero => simp at hf
          | succ f2 => simp [chunkListAux]
        rw [List.dropLast_cons_of_ne_nil hrest, List.mem_cons] at hc
        rcases hc with rfl | hc
        · rw [List.length_take]
          omega
        · rw [hdrop] at hc
          exact ih (y :: ys) hf c hc

theorem chunkList_dropLast_full {α : Type} (n : Nat) (hn : n ≠ 0) (l : List α) :
    ∀ c ∈ (chunkList n l).dropLast, c.length = n :=
  chunkListAux_dropLast_full n hn l.length l le_rfl

theorem validatedList_eq_map (validate : String → Except String ValidateEmailOutput)
    (l : List String) :
    validatedList validate l = l.map (validateOne validate) := by
  unfold validatedList
  rw [List.flatMap_def, ← List.map_flatten, chunkList_flatten 10 (by omega)]

theorem string_append_ne_empty_left (s t : String) (h : s ≠ "") : s ++ t ≠ "" := by
  intro hc
  apply h
  have hd := congrArg String.data hc
  rw [String.data_append] at hd
  rcases List.append_eq_nil.mp hd with ⟨h1, _⟩
  cases s
  simp_all

theorem joinSpace_ne_empty (s : String) (rest : List String) (h : s ≠ "") :
    joinSpace (s :: rest) ≠ "" := by
  cases rest with
  | nil => exact h
  | cons a t =>
    have : joinSpace (s :: a :: t) = s ++ " " ++ joinSpace (a :: t) := rfl
    rw [this]
    exact string_append_ne_empty_left _ _ (string_append_ne_empty_left s " " h)

theorem jsOrString_ne_empty (a : Option String) (b : String) (hb : b ≠ "") :
    jsOrString a b ≠ "" := by
  unfold jsOrString
  cases a with
  | none => exact hb
  | some s =>
    by_cases hs : s = ""
    · simp [hs, hb]
    · show (if s ≠ "" then s else b) ≠ ""
      rw [if_pos hs]
      exact hs

/-- The head sentence of the main-path narrative is never empty. -/
theorem preValidationSteps_head_ne_empty (out : LLMCompaniesOutput) :
    jsOrString out.initialReasoning
        ("LLM identified " ++ toString out.companies.length ++ " companies.") ≠ "" :=
  jsOrString_ne_empty _ _
    (string_append_ne_empty_left _ _
      (string_append_ne_empty_left "LLM identified " _ (by decide)))

end B2B

namespace B2B

/-- C2: the NeverBounce Candidate Validator never throws — every
failure mode is encoded in the `status` field of the returned outcome:
with the API key unset the tool returns `error_api_key_missing`
immediately and its result does not depend on the network behaviour
(no network call is made); with the key set, a rejected network
request yields status `network_error` and an unparseable vendor
response yields status `api_error`.  Totality of the embedding is
totality of the tool. -/
theorem validateEmailToolNB_never_throws (email : String)
    (wire wire' : NBWire) (key msg err : String) (hkey : key ≠ "") :
    (validateEmailToolNB none wire email).status = "error_api_key_missing" ∧
    validateEmailToolNB none wire email = validateEmailToolNB none wire' email ∧
    (validateEmailToolNB (some key) (.netThrow msg) email).status = "network_error" ∧
    (validateEmailToolNB (some key) (.badShape err) email).status = "api_error" := by
  refine ⟨rfl, rfl, ?_, ?_⟩ <;>
    simp [validateEmailToolNB, envKeySet, verifyEmailWithNeverBounce, hkey]

/-- Witness for `validateEmailToolNB_never_throws` at concrete inputs. -/
theorem validateEmailToolNB_never_throws_witness :
    (validateEmailToolNB none (.netThrow "timeout") "a@b.com").status
        = "error_api_key_missing" ∧
    validateEmailToolNB none (.netThrow "timeout") "a@b.com"
        = validateEmailToolNB none (.badShape "oops") "a@b.com" ∧
    (validateEmailToolNB (some "k") (.netThrow "timeout") "a@b.com").status
        = "network_error" ∧
    (validateEmailToolNB (some "k") (.badShape "oops") "a@b.com").status
        = "api_error" :=
  validateEmailToolNB_never_throws "a@b.com" (.netThrow "timeout")
    (.badShape "oops") "k" "timeout" "oops" (by decide)

/-- C6 counterexample: with the API key configured and the discovery
endpoint answering HTTP 500, the Contact Finder returns an empty email
list but NO error string — the `error` field of the tool output stays
unset (the status code and body are only logged). -/
theorem findApolloEmailsTool_httpError_no_error_string :
    (findApolloEmailsTool (some "key") (.httpError 500 "Internal Server Error")
        "acme.com" 5).emails = [] ∧
    (findApolloEmailsTool (some "key") (.httpError 500 "Internal Server Error")
        "acme.com" 5).error = none := by
  decide

/-- C6 (amended): on a non-success HTTP status the Contact Finder
returns an empty email list and no error string at all: the tool
output is exactly `{domain, emails: [], error: unset}` — an error
string built from status code and body is only written to the log,
never returned (the `error` field is set only when the key is
unconfigured or the service call itself throws). -/
theorem findApolloEmailsTool_httpError (apiKey dom body : String)
    (code maxE : Nat) (hkey : apiKey ≠ "") :
    findApolloEmailsTool (some apiKey) (.httpError code body) dom maxE
      = { domain := dom, emails := [], error := none } := by
  simp [findApolloEmailsTool, envKeySet, fetchEmailsFromApollo, hkey]

/-- Witness for `findApolloEmailsTool_httpError` at concrete inputs. -/
theorem findApolloEmailsTool_httpError_witness :
    findApolloEmailsTool (some "key") (.httpError 404 "not found") "acme.com" 5
      = { domain := "acme.com", emails := [], error := none } :=
  findApolloEmailsTool_httpError "key" "acme.com" "not found" 404 5 (by decide)

/-- C7: on a successful discovery response the Contact Finder returns
the `email` field of every returned person record, with null and
blank entries dropped, truncated to `maxEmailsPerDomain`; in
particular the returned list never has more than `maxEmailsPerDomain`
entries. -/
theorem findApolloEmailsTool_success (apiKey dom : String)
    (l : List (Option String)) (maxE : Nat) (hkey : apiKey ≠ "") :
    (findApolloEmailsTool (some apiKey) (.ok (.people l)) dom maxE).emails
      = ((l.filterMap id).filter (fun e => jsTrim e ≠ "")).take maxE ∧
    (findApolloEmailsTool (some apiKey) (.ok (.people l)) dom maxE).emails.length
      ≤ maxE := by
  have he : (findApolloEmailsTool (some apiKey) (.ok (.people l)) dom maxE).emails
      = ((l.filterMap id).filter (fun e => jsTrim e ≠ "")).take maxE := by
    simp [findApolloEmailsTool, envKeySet, fetchEmailsFromApollo, hkey]
  exact ⟨he, he ▸ List.length_take_le maxE _⟩

/-- Witness for `findApolloEmailsTool_success` at concrete inputs:
two usable records, one null and one blank record, truncated to 2. -/
theorem findApolloEmailsTool_success_witness :
    (findApolloEmailsTool (some "k")
        (.ok (.people [some "a@b.com", none, some " ", some "c@d.com", some "e@f.org"]))
        "b.com" 2).emails
      = (([some "a@b.com", none, some " ", some "c@d.com", some "e@f.org"].filterMap id).filter
          (fun e => jsTrim e ≠ "")).take 2 ∧
    (findApolloEmailsTool (some "k")
        (.ok (.people [some "a@b.com", none, some " ", some "c@d.com", some "e@f.org"]))
        "b.com" 2).emails.length ≤ 2 :=
  findApolloEmailsTool_success "k" "b.com"
    [some "a@b.com", none, some " ", some "c@d.com", some "e@f.org"] 2 (by decide)

/-- C3 (amended): deduplication pools case-insensitively — for a pool
containing an address and a differently-cased duplicate of it, the
deduplicated set contains exactly one entry for that address — but the
surviving entry is the lowercased form of the address, not the
first-seen casing: every entry of the deduplicated set is fully
lowercased. -/
theorem dedupeLowercase_exactly_one (l : List String) (x y : String)
    (hx : x ∈ l) (_hy : y ∈ l) (_hne : x ≠ y)
    (_hcase : strToLower x = strToLower y) :
    (dedupeLowercase l).count (strToLower x) = 1 ∧
    ∀ e ∈ dedupeLowercase l, strToLower e = e := by
  constructor
  · exact List.count_eq_one_of_mem (nodup_jsSetOfList _)
      ((mem_dedupeLowercase l _).mpr (List.mem_map_of_mem strToLower hx))
  · intro e he
    rcases List.mem_map.mp ((mem_dedupeLowercase l e).mp he) with ⟨a, _, rfl⟩
    exact strToLower_idem a

/-- Witness for `dedupeLowercase_exactly_one` at a concrete pool. -/
theorem dedupeLowercase_exactly_one_witness :
    (dedupeLowercase ["Ab@x.com", "ab@x.com"]).count (strToLower "Ab@x.com") = 1 ∧
    ∀ e ∈ dedupeLowercase ["Ab@x.com", "ab@x.com"], strToLower e = e := by
  refine dedupeLowercase_exactly_one ["Ab@x.com", "ab@x.com"] "Ab@x.com" "ab@x.com"
    ?_ ?_ ?_ ?_ <;> decide

/-- C3 counterexample: with pool `["Ab@x.com", "ab@x.com"]` the
first-seen casing is `"Ab@x.com"`, but the deduplicated set is
`["ab@x.com"]` — the first-seen casing is not preserved. -/
theorem dedupeLowercase_drops_first_seen_casing :
    dedupeLowercase ["Ab@x.com", "ab@x.com"] = ["ab@x.com"] ∧
    "Ab@x.com" ∉ dedupeLowercase ["Ab@x.com", "ab@x.com"] := by
  decide

end B2B

namespace B2B

/-- C5: The basic validation variant is a pure syntactic check: it
returns status "valid" exactly when the trimmed input is non-empty,
contains an at-sign, and is longer than 3 characters, and status
"invalid" otherwise.  Being a function of the string alone, it makes
no network call. -/
theorem validateEmailBasic_valid_iff (s : String) :
    ((validateEmailBasic s).status = "valid" ↔
      (jsTrim s ≠ "" ∧ jsIncludesChar (jsTrim s) '@' ∧ (jsTrim s).length > 3)) ∧
    ((validateEmailBasic s).status = "valid" ∨
      (validateEmailBasic s).status = "invalid") := by
  unfold validateEmailBasic
  by_cases h : jsTrim s ≠ "" ∧ jsIncludesChar (jsTrim s) '@' ∧ (jsTrim s).length > 3 <;>
    simp [h]

end B2B

namespace B2B

/-- C1 (amended): the orchestrating (NeverBounce) find-by-criteria
flow always returns exactly one well-formed result with a non-empty
narrative, and a rejection of the awaited LLM call — the only awaited
call not wrapped in its own `.catch` — is caught at the top level and
converted into an empty address list with the fixed critical-error
narrative.  (The prompt-only variant does not share this property,
see the counterexample.) -/
theorem findFlow_total_and_catch (env : FindCriteriaEnv) :
    ((∃ e, env.llm = .error e) →
      findEmailsByCriteriaFlow env =
        { emailAddresses := [], reasoning := criticalErrorMsg }) ∧
    (findEmailsByCriteriaFlow env).reasoning ≠ "" := by
  constructor
  · rintro ⟨e, he⟩
    simp [findEmailsByCriteriaFlow, he, joinSpace]
  · rcases hl : env.llm with e | o
    · simp only [findEmailsByCriteriaFlow, hl, joinSpace]
      decide
    · cases o with
      | none =>
        simp only [findEmailsByCriteriaFlow, hl, joinSpace]
        decide
      | some out =>
        by_cases hc : out.companies = []
        · simp only [findEmailsByCriteriaFlow, hl, if_pos hc, joinSpace]
          decide
        · by_cases hcomb : combinedOf env out = []
          · simp only [findEmailsByCriteriaFlow, hl, if_neg hc, if_pos hcomb,
              preValidationSteps, List.cons_append, List.nil_append]
            exact joinSpace_ne_empty _ _ (preValidationSteps_head_ne_empty out)
          · simp only [findEmailsByCriteriaFlow, hl, if_neg hc, if_neg hcomb,
              preValidationSteps, List.cons_append, List.nil_append]
            exact joinSpace_ne_empty _ _ (preValidationSteps_head_ne_empty out)

/-- Witness for `findFlow_total_and_catch`: a concrete environment
whose LLM call rejects. -/
theorem findFlow_total_and_catch_witness :
    findEmailsByCriteriaFlow envLLMError =
      { emailAddresses := [], reasoning := criticalErrorMsg } ∧
    (findEmailsByCriteriaFlow envLLMError).reasoning ≠ "" :=
  ⟨(findFlow_total_and_catch envLLMError).1 ⟨"model unavailable", rfl⟩,
    (findFlow_total_and_catch envLLMError).2⟩

/-- C1 counterexample: the prompt-only historical variant of the
find-by-criteria flow has no `try`/`catch` — when the LLM call
rejects, the exception escapes to the caller and no result object is
produced. -/
theorem findFlowSimple_exception_escapes :
    findEmailsByCriteriaFlowSimple (.error "LLM invocation failed")
      = .error "LLM invocation failed" ∧
    (findEmailsByCriteriaFlowSimple (.error "LLM invocation failed")).isOk = false := by
  exact ⟨rfl, rfl⟩

end B2B

namespace B2B

/-- C4 (amended): the find-by-criteria flow enforces no result cap at
all — whenever the pipeline reaches validation, the returned address
list is exactly the full list of addresses that validated as `valid`,
with no truncation (and the narrative reports displaying all of
them). -/
theorem findFlow_uncapped (env : FindCriteriaEnv) (out : LLMCompaniesOutput)
    (h : env.llm = .ok (some out)) (hc : out.companies ≠ [])
    (hcomb : combinedOf env out ≠ []) :
    (findEmailsByCriteriaFlow env).emailAddresses
      = keptEmails env.validate (uniqueOf env out) := by
  simp only [findEmailsByCriteriaFlow, h, if_neg hc, if_neg hcomb]

/-- Witness for `findFlow_uncapped` at the concrete 31-candidate
environment. -/
theorem findFlow_uncapped_witness :
    (findEmailsByCriteriaFlow env31).emailAddresses
      = keptEmails env31.validate (uniqueOf env31 out31) :=
  findFlow_uncapped env31 out31 rfl (by decide) (by decide)

set_option maxRecDepth 40000 in
/-- C4 counterexample: an environment with 31 unique candidates all
validating as `valid` makes the find-by-criteria flow return 31
addresses — more than the claimed cap of 30. -/
theorem findFlow_exceeds_cap30 :
    (findEmailsByCriteriaFlow env31).emailAddresses.length = 31 ∧
    ¬ ((findEmailsByCriteriaFlow env31).emailAddresses.length ≤ 30) := by
  decide

end B2B

namespace B2B

/-- C8: when validation runs, the deduplicated candidate list is cut
into slices of at most 10 (every slice non-empty and every slice but
possibly the last of exactly 10), every member of every slice is
validated (the concatenation of the slices is the whole list and one
outcome is produced per candidate), a single address's rejection is
converted into a per-address `error_tool_invocation_failed` outcome
instead of aborting its chunk, and every kept address comes from an
outcome whose status is `valid`. -/
theorem chunked_validation_spec
    (validate : String → Except String ValidateEmailOutput) (l : List String) :
    (chunkList 10 l).flatten = l ∧
    (∀ c ∈ chunkList 10 l, c ≠ [] ∧ c.length ≤ 10) ∧
    (∀ c ∈ (chunkList 10 l).dropLast, c.length = 10) ∧
    (validatedList validate l).length = l.length ∧
    (∀ e msg, validate e = .error msg →
      validateOne validate e =
        { email := e, status := "error_tool_invocation_failed", sub_status := some msg }) ∧
    (∀ a ∈ keptEmails validate l, ∃ r ∈ validatedList validate l,
      r.status = "valid" ∧ r.email = a) := by
  refine ⟨chunkList_flatten 10 (by omega) l, chunkList_mem_bounds 10 (by omega) l,
    chunkList_dropLast_full 10 (by omega) l, ?_, ?_, ?_⟩
  · rw [validatedList_eq_map, List.length_map]
  · intro e msg h
    simp [validateOne, h]
  · intro a ha
    unfold keptEmails at ha
    rcases List.mem_map.mp ha with ⟨r, hr, rfl⟩
    rcases List.mem_filter.mp hr with ⟨hrm, hkeep⟩
    refine ⟨r, hrm, ?_, rfl⟩
    unfold keptPred at hkeep
    simp only [Bool.and_eq_true, beq_iff_eq, bne_iff_ne] at hkeep
    exact hkeep.1

/-- Witness for `chunked_validation_spec` on twelve candidates (two
chunks) with one rejecting address. -/
theorem chunked_validation_spec_witness :
    (chunkList 10 w12).flatten = w12 ∧
    (validatedList wValidate w12).length = w12.length ∧
    validateOne wValidate "bad@x.com" =
      { email := "bad@x.com", status := "error_tool_invocation_failed",
        sub_status := some "boom" } :=
  ⟨(chunked_validation_spec wValidate w12).1,
    (chunked_validation_spec wValidate w12).2.2.2.1,
    (chunked_validation_spec wValidate w12).2.2.2.2.1 "bad@x.com" "boom" rfl⟩

end B2B

namespace B2B

/-- C9: every address in the final list of the find-by-criteria flow
is fully lowercased provided the validator echoes the submitted
address in its `email` field (both `validateEmailTool` variants used
by this flow do), and every address in the final list of the
Apollo-based generate-from-domains flow is fully lowercased,
unconditionally. -/
theorem flows_lowercase_outputs :
    (∀ env : FindCriteriaEnv,
      (∀ e r, env.validate e = .ok r → r.email = e) →
      ∀ a ∈ (findEmailsByCriteriaFlow env).emailAddresses, strToLower a = a) ∧
    (∀ genv : GenDomainsEnv,
      ∀ a ∈ (generateEmailsFromDomainsFlow genv).processedEmails, strToLower a = a) := by
  constructor
  · intro env hval a ha
    rcases hl : env.llm with e | o
    · simp [findEmailsByCriteriaFlow, hl] at ha
    · cases o with
      | none => simp [findEmailsByCriteriaFlow, hl] at ha
      | some out =>
        by_cases hc : out.companies = []
        · simp [findEmailsByCriteriaFlow, hl, hc] at ha
        · by_cases hcomb : combinedOf env out = []
          · simp [findEmailsByCriteriaFlow, hl, hc, hcomb] at ha
          · simp only [findEmailsByCriteriaFlow, hl, if_neg hc, if_neg hcomb] at ha
            unfold keptEmails at ha
            rcases List.mem_map.mp ha with ⟨r, hr, rfl⟩
            rcases List.mem_filter.mp hr with ⟨hrm, _⟩
            rw [validatedList_eq_map] at hrm
            rcases List.mem_map.mp hrm with ⟨e, he, rfl⟩
            have hemail : (validateOne env.validate e).email = e := by
              unfold validateOne
              rcases hv : env.validate e with msg | r2
              · rfl
              · exact hval e r2 hv
            rw [hemail]
            have hmem := (mem_dedupeLowercase _ e).mp he
            rcases List.mem_map.mp hmem with ⟨b, _, rfl⟩
            exact strToLower_idem b
  · intro genv a ha
    rcases hd : genv.domainsCall with e | o
    · simp [generateEmailsFromDomainsFlow, hd] at ha
    · by_cases hdom : o.getD [] = []
      · simp [generateEmailsFromDomainsFlow, hd, hdom] at ha
      · simp only [generateEmailsFromDomainsFlow, hd, if_neg hdom] at ha
        unfold genUniqueOf at ha
        have hmem := (mem_dedupeLowercase _ a).mp ha
        rcases List.mem_map.mp hmem with ⟨b, _, rfl⟩
        exact strToLower_idem b

/-- Witness for `flows_lowercase_outputs` at concrete mixed-case
environments. -/
theorem flows_lowercase_outputs_witness :
    strToLower "upper@x.com" = "upper@x.com" ∧
    strToLower "contact@acme.com" = "contact@acme.com" :=
  ⟨flows_lowercase_outputs.1 envMixed
      (fun e r h => by injection h with h2; rw [← h2])
      "upper@x.com" (by decide),
    flows_lowercase_outputs.2 genEnvW "contact@acme.com" (by decide)⟩

end B2B

namespace B2B

/-- C10: as soon as domain extraction yields at least one domain, the
four generic addresses `contact@`, `info@`, `support@` and `sales@`
of every extracted domain end up (lowercased) in the returned list of
the Apollo-based generate-from-domains flow, whatever the Apollo
lookups do — in particular even when every lookup fails. -/
theorem generic_suggestions_survive (env : GenDomainsEnv) (ds : List String)
    (h : env.domainsCall = .ok (some ds)) (hne : ds ≠ []) :
    ∀ d ∈ ds, ∀ p ∈ genericPrefixes,
      strToLower (p ++ d) ∈ (generateEmailsFromDomainsFlow env).processedEmails := by
  intro d hd p hp
  simp only [generateEmailsFromDomainsFlow, h, Option.getD_some, if_neg hne]
  unfold genUniqueOf
  rw [mem_dedupeLowercase]
  refine List.mem_map.mpr ⟨p ++ d, List.mem_filter.mpr ⟨?_, ?_⟩, rfl⟩
  · unfold genAllPotentialOf
    refine List.mem_append_left _ ?_
    unfold genericSuggestionsOf
    exact List.mem_flatMap.mpr ⟨d, hd, List.mem_map.mpr ⟨p, hp, rfl⟩⟩
  · show jsIncludesChar (p ++ d) '@' = true
    have hat : '@' ∈ p.data := by
      fin_cases hp <;> decide
    simpa [jsIncludesChar, String.data_append] using List.mem_append_left d.data hat

/-- Witness for `generic_suggestions_survive`: one extracted domain,
every Apollo lookup rejecting. -/
theorem generic_suggestions_survive_witness :
    strToLower ("contact@" ++ "acme.com")
      ∈ (generateEmailsFromDomainsFlow genEnvW).processedEmails :=
  generic_suggestions_survive genEnvW ["acme.com"] rfl (by decide)
    "acme.com" (by decide) "contact@" (by decide)

end B2B
